import Mathlib

/-!
Shallow embedding of the multilingual item-name resolution core of
warframe-patch-manager: `WFItemsLoader` (src/core/wf_items_loader.py) and
`SearchEngine` (src/core/search_engine.py).

File sources are modelled abstractly: a CSV source is `none` when the file is
missing or unreadable and `some rows` when it parses into a list of rows
(each row a list of cell strings); the i18n JSON source is `none` when the
file is missing, unreadable, or fails to parse, and `some raw` when it parses
into a top-level mapping.  Python `dict` construction (insertion order kept,
last write wins for the value) is modelled by `dictify`.
-/

namespace WPM

/-- Model of Python `str.lower` restricted to ASCII case mapping (the data and
queries relevant here are ASCII or caseless CJK, on which the two agree). -/
def lowerChar (c : Char) : Char :=
  if 65 ≤ c.toNat ∧ c.toNat ≤ 90 then Char.ofNat (c.toNat + 32) else c

/-- Lowercase every character of a string: model of `s.lower()`. -/
def lowerStr (s : String) : String := ⟨s.data.map lowerChar⟩

/-- `leadsB needle hay` is true when `needle` is an initial segment of `hay`. -/
def leadsB : List Char → List Char → Bool
  | [], _ => true
  | _ :: _, [] => false
  | a :: as, b :: bs => a = b && leadsB as bs

/-- `occursIn needle hay` is true when `needle` occurs contiguously inside
`hay`: model of the Python membership test `needle in hay` on strings. -/
def occursIn (needle : List Char) : List Char → Bool
  | [] => leadsB needle []
  | c :: t => leadsB needle (c :: t) || occursIn needle t

/-- Model of `all(ord(c) < 128 for c in s)`. -/
def isAsciiStr (s : String) : Bool := s.data.all (fun c => c.toNat < 128)

/-- Whitespace recognised by the model of Python `str.strip`. -/
def isWsChar (c : Char) : Bool := c = ' ' || c = '\t' || c = '\n' || c = '\r'

/-- Model of Python `str.strip()`. -/
def trimPy (s : String) : String :=
  ⟨((s.data.dropWhile isWsChar).reverse.dropWhile isWsChar).reverse⟩

/-- Insert a key/value pair into an association list the way Python `d[k] = v`
does: if the key is present its value is replaced in place, otherwise the pair
is appended at the end. -/
def dictInsert {α : Type} : List (String × α) → String → α → List (String × α)
  | [], k, v => [(k, v)]
  | (k', v') :: rest, k, v =>
    if k' = k then (k, v) :: rest else (k', v') :: dictInsert rest k v

/-- Build a Python dict from a list of key/value pairs: first-insertion order,
last write wins. -/
def dictify {α : Type} (l : List (String × α)) : List (String × α) :=
  l.foldl (fun d kv => dictInsert d kv.1 kv.2) []

/-- Python `d.get(k)` on a (dictified) association list. -/
def dlookup {α : Type} : List (String × α) → String → Option α
  | [], _ => none
  | (k', v) :: rest, k => if k' = k then some v else dlookup rest k

/-- Field name → value mapping of one language entry of i18n.json. -/
abbrev FieldTable := List (String × String)

/-- Language code → fields mapping of one item of i18n.json. -/
abbrev LangTable := List (String × FieldTable)

/-- Top-level mapping of i18n.json: internal name → languages. -/
abbrev I18nTable := List (String × LangTable)

/-- Identifier → English name table loaded from the CSV. -/
abbrev NameTable := List (String × String)

/-- Abstract state of the two input files of `WFItemsLoader`. -/
structure WFSources where
  csvSrc : Option (List (List String))
  i18nSrc : Option I18nTable

/-- One CSV data row of `WFItemsLoader._load_csv` / `SearchEngine.load_items`:
kept when it has at least two cells whose stripped values are both nonempty. -/
def parseRow (row : List String) : Option (String × String) :=
  match row with
  | a :: b :: _ =>
    if trimPy a ≠ "" ∧ trimPy b ≠ "" then some (trimPy a, trimPy b) else none
  | _ => none

/-- `WFItemsLoader._load_csv`: fails when the file is missing or has no rows
at all; otherwise discards the header row and dict-builds the remaining
well-formed rows. -/
def parseCsv : Option (List (List String)) → Option NameTable
  | none => none
  | some [] => none
  | some (_ :: rows) => some (dictify (rows.filterMap parseRow))

/-- `json.load` of the i18n file: nested objects become nested dicts. -/
def dictifyI18n (raw : I18nTable) : I18nTable :=
  dictify (raw.map (fun e => (e.1, dictify (e.2.map (fun f => (f.1, dictify f.2))))))

/-- Combined effect of `WFItemsLoader.load_data`: `none` when either source
fails to load (the loader then counts as not loaded and every query answers
its default), `some (english_names, i18n_data)` on success. -/
def loadResult (s : WFSources) : Option (NameTable × I18nTable) :=
  match parseCsv s.csvSrc, s.i18nSrc with
  | some en, some raw => some (en, dictifyI18n raw)
  | _, _ => none

namespace WFItemsLoader

/-- `WFItemsLoader.get_item_name`. -/
def get_item_name (s : WFSources) (internal_name language : String) : String :=
  match loadResult s with
  | none => ""
  | some (en, i18n) =>
    if language = "en" then (dlookup en internal_name).getD ""
    else
      match dlookup i18n internal_name with
      | some langs =>
        match dlookup langs language with
        | some fields =>
          match dlookup fields "name" with
          | some nm => nm
          | none => (dlookup en internal_name).getD ""
        | none => (dlookup en internal_name).getD ""
      | none => (dlookup en internal_name).getD ""

/-- The append-then-check collection loop shared by the English branch of
`WFItemsLoader.search_by_language` and by `SearchEngine.search`: scan the
table, keep entries satisfying `p`, and break as soon as the number collected
so far (`count` on entry) reaches `limit`. -/
def scanLoop (p : String × String → Bool) (limit : Nat) :
    List (String × String) → Nat → List (String × String)
  | [], _ => []
  | x :: rest, count =>
    if p x then
      if limit ≤ count + 1 then [x]
      else x :: scanLoop p limit rest (count + 1)
    else scanLoop p limit rest count

/-- One step of the `target_language_results` collection loop of
`WFItemsLoader.search_by_language`: the hit contributed by one i18n item, if
its entry for `language` has a "name" field containing the lowered query
`ql`. -/
def targetHitOf (language ql : String) (e : String × LangTable) :
    Option (String × String) :=
  match dlookup e.2 language with
  | some fields =>
    match dlookup fields "name" with
    | some nm =>
      if occursIn ql.data (lowerStr nm).data then some (e.1, nm) else none
    | none => none
  | none => none

/-- The `target_language_results` collection loop of
`WFItemsLoader.search_by_language`: items whose entry for `language` has a
"name" field containing the lowered query `ql`. -/
def targetHits (i18n : I18nTable) (language ql : String) :
    List (String × String) :=
  i18n.filterMap (targetHitOf language ql)

/-- The `english_results` collection loop of
`WFItemsLoader.search_by_language`: English-table entries not already among
the target-language hits whose name contains the lowered query `ql`. -/
def englishHits (en : NameTable) (th : List (String × String)) (ql : String) :
    List (String × String) :=
  en.filter (fun e =>
    !(th.any (fun r => e.1 = r.1)) && occursIn ql.data (lowerStr e.2).data)

/-- The fill loop of the ASCII branch of `WFItemsLoader.search_by_language`:
append entries of `src` whose identifier is not already in `results`,
breaking as soon as the total reaches `limit`. -/
def fillLoop (limit : Nat) :
    List (String × String) → List (String × String) → List (String × String)
  | results, [] => results
  | results, (id, nm) :: rest =>
    if results.any (fun r => id = r.1) then fillLoop limit results rest
    else
      if limit ≤ (results ++ [(id, nm)]).length then results ++ [(id, nm)]
      else fillLoop limit (results ++ [(id, nm)]) rest

/-- `WFItemsLoader.search_by_language`. -/
def search_by_language (s : WFSources) (query language : String)
    (limit : Nat) : List (String × String) :=
  match loadResult s with
  | none => []
  | some (en, i18n) =>
    if query.length < 2 then []
    else if language = "en" then
      scanLoop (fun e => occursIn (lowerStr query).data (lowerStr e.2).data)
        limit en 0
    else if isAsciiStr query then
      if ((englishHits en (targetHits i18n language (lowerStr query))
            (lowerStr query)).take limit).length < limit then
        fillLoop limit
          ((englishHits en (targetHits i18n language (lowerStr query))
            (lowerStr query)).take limit)
          (targetHits i18n language (lowerStr query))
      else
        (englishHits en (targetHits i18n language (lowerStr query))
          (lowerStr query)).take limit
    else
      if ((targetHits i18n language (lowerStr query)).take limit).length
          < limit then
        (targetHits i18n language (lowerStr query)).take limit ++
          (englishHits en (targetHits i18n language (lowerStr query))
            (lowerStr query)).take
            (limit -
              ((targetHits i18n language (lowerStr query)).take limit).length)
      else
        (targetHits i18n language (lowerStr query)).take limit

/-- `WFItemsLoader.get_supported_languages`. -/
def get_supported_languages (s : WFSources) : Finset String :=
  match loadResult s with
  | none => {"en"}
  | some (_, i18n) =>
    i18n.foldl (fun acc e => acc ∪ (e.2.map Prod.fst).toFinset) {"en"}

/-- `WFItemsLoader.get_item_count`: size of the set built from the CSV keys
then extended with the i18n keys. -/
def get_item_count (s : WFSources) : Nat :=
  match loadResult s with
  | none => 0
  | some (en, i18n) => ((en.map Prod.fst) ++ (i18n.map Prod.fst)).dedup.length

end WFItemsLoader

namespace SearchEngine

/-- `SearchEngine.load_items`: same row policy as the loader's CSV parse, but
the rows are appended to a flat list (duplicates kept); an unreadable or empty
file leaves the list empty. -/
def load_items (csvSrc : Option (List (List String))) : List (String × String) :=
  match csvSrc with
  | none => []
  | some [] => []
  | some (_ :: rows) => rows.filterMap parseRow

/-- `SearchEngine.search` (the basic search): substring match against the
lowered internal name or the lowered localized name, insertion order, stop at
`limit`. -/
def search (items : List (String × String)) (query : String) (limit : Nat) :
    List (String × String) :=
  if query.length < 2 then []
  else
    WFItemsLoader.scanLoop
      (fun e => occursIn (lowerStr query).data (lowerStr e.1).data ||
        occursIn (lowerStr query).data (lowerStr e.2).data)
      limit items 0

/-- `SearchEngine.search_by_language`: consult the loader first; when it
produces no results fall back to the basic search. -/
def search_by_language (items : List (String × String)) (s : WFSources)
    (query language : String) (limit : Nat) : List (String × String) :=
  if query.length < 2 then []
  else
    if (WFItemsLoader.search_by_language s query language limit).isEmpty then
      search items query limit
    else WFItemsLoader.search_by_language s query language limit

end SearchEngine

/-! ### Lemmas about the dict model -/

theorem dlookup_dictInsert {α : Type} (d : List (String × α)) (k k' : String)
    (v : α) :
    dlookup (dictInsert d k v) k' = if k = k' then some v else dlookup d k' := by
  induction d with
  | nil => simp [dictInsert, dlookup]
  | cons hd tl ih =>
    obtain ⟨a, b⟩ := hd
    by_cases hak : a = k
    · subst hak
      by_cases hk' : a = k'
      · subst hk'; simp [dictInsert, dlookup]
      · simp [dictInsert, dlookup, hk']
    · by_cases hk' : a = k'
      · subst hk'
        have hkk' : ¬(k = a) := fun h => hak h.symm
        simp [dictInsert, dlookup, hak, hkk']
      · simp [dictInsert, dlookup, hak, hk', ih]

theorem dictInsert_map_fst {α : Type} (d : List (String × α)) (k : String)
    (v : α) :
    (dictInsert d k v).map Prod.fst =
      if k ∈ d.map Prod.fst then d.map Prod.fst
      else d.map Prod.fst ++ [k] := by
  induction d with
  | nil => simp [dictInsert]
  | cons hd tl ih =>
    obtain ⟨a, b⟩ := hd
    by_cases hak : a = k
    · subst hak; simp [dictInsert]
    · have hka : ¬(k = a) := fun h => hak h.symm
      by_cases hmem : k ∈ tl.map Prod.fst
      · simp [dictInsert, hak, hka, hmem, ih]
      · simp [dictInsert, hak, hka, hmem, ih]

theorem dictInsert_keys_nodup {α : Type} {d : List (String × α)} {k : String}
    {v : α} (h : (d.map Prod.fst).Nodup) :
    ((dictInsert d k v).map Prod.fst).Nodup := by
  rw [dictInsert_map_fst]
  by_cases hmem : k ∈ d.map Prod.fst
  · simpa [hmem] using h
  · simp [hmem, List.nodup_append, h]

theorem foldl_dictInsert_keys_nodup {α : Type} (l : List (String × α)) :
    ∀ d : List (String × α), (d.map Prod.fst).Nodup →
      ((l.foldl (fun d kv => dictInsert d kv.1 kv.2) d).map Prod.fst).Nodup := by
  induction l with
  | nil => intro d h; simpa using h
  | cons hd tl ih =>
    intro d h
    simp only [List.foldl_cons]
    exact ih _ (dictInsert_keys_nodup h)

theorem dictify_keys_nodup {α : Type} (l : List (String × α)) :
    ((dictify l).map Prod.fst).Nodup :=
  foldl_dictInsert_keys_nodup l [] (by simp)

theorem dlookup_foldl_dictInsert {α : Type} (l : List (String × α)) :
    ∀ (d : List (String × α)) (k : String),
      dlookup (l.foldl (fun d kv => dictInsert d kv.1 kv.2) d) k =
        match l.reverse.find? (fun p => p.1 = k) with
        | some p => some p.2
        | none => dlookup d k := by
  induction l with
  | nil => intro d k; simp
  | cons hd tl ih =>
    intro d k
    simp only [List.foldl_cons, List.reverse_cons]
    rw [ih, List.find?_append]
    cases hfind : tl.reverse.find? (fun p => p.1 = k) with
    | some p => simp [hfind]
    | none =>
      obtain ⟨a, b⟩ := hd
      by_cases hak : a = k
      · subst hak; simp [hfind, List.find?, dlookup_dictInsert]
      · simp [hfind, List.find?, hak, dlookup_dictInsert]

theorem dlookup_dictify {α : Type} (l : List (String × α)) (k : String) :
    dlookup (dictify l) k =
      (l.reverse.find? (fun p => p.1 = k)).map Prod.snd := by
  rw [dictify, dlookup_foldl_dictInsert]
  cases l.reverse.find? (fun p => p.1 = k) <;> simp [dlookup]

theorem parseCsv_keys_nodup {src : Option (List (List String))}
    {en : NameTable} (h : parseCsv src = some en) :
    (en.map Prod.fst).Nodup := by
  match src with
  | none => simp [parseCsv] at h
  | some [] => simp [parseCsv] at h
  | some (hd :: rows) =>
    simp only [parseCsv, Option.some.injEq] at h
    exact h ▸ dictify_keys_nodup _

theorem dictifyI18n_keys_nodup (raw : I18nTable) :
    ((dictifyI18n raw).map Prod.fst).Nodup :=
  dictify_keys_nodup _

theorem loadResult_keys_nodup {s : WFSources} {en : NameTable}
    {i18n : I18nTable} (h : loadResult s = some (en, i18n)) :
    (en.map Prod.fst).Nodup ∧ (i18n.map Prod.fst).Nodup := by
  unfold loadResult at h
  cases hc : parseCsv s.csvSrc with
  | none => rw [hc] at h; simp at h
  | some en' =>
    cases hi : s.i18nSrc with
    | none => rw [hc, hi] at h; simp at h
    | some raw =>
      rw [hc, hi] at h
      simp only [Option.some.injEq, Prod.mk.injEq] at h
      obtain ⟨he, hii⟩ := h
      subst he; subst hii
      exact ⟨parseCsv_keys_nodup hc, dictifyI18n_keys_nodup raw⟩

theorem loadResult_no_i18n (csvSrc : Option (List (List String))) :
    loadResult ⟨csvSrc, none⟩ = none := by
  unfold loadResult
  cases parseCsv csvSrc <;> rfl

/-! ### Lemmas about the scan, collection and fill loops -/

theorem scanLoop_sublist (p : String × String → Bool) (limit : Nat) :
    ∀ (l : List (String × String)) (count : Nat),
      List.Sublist (WFItemsLoader.scanLoop p limit l count) l := by
  intro l
  induction l with
  | nil => intro count; simp [WFItemsLoader.scanLoop]
  | cons x rest ih =>
    intro count
    simp only [WFItemsLoader.scanLoop]
    by_cases hp : p x
    · rw [if_pos hp]
      by_cases hstop : limit ≤ count + 1
      · rw [if_pos hstop]
        exact (List.nil_sublist rest).cons₂ x
      · rw [if_neg hstop]
        exact (ih (count + 1)).cons₂ x
    · rw [if_neg hp]
      exact (ih count).cons x

theorem scanLoop_eq (p : String × String → Bool) (limit : Nat) :
    ∀ (l : List (String × String)) (count : Nat), count < limit →
      WFItemsLoader.scanLoop p limit l count =
        (l.filter p).take (limit - count) := by
  intro l
  induction l with
  | nil => intro count hc; simp [WFItemsLoader.scanLoop]
  | cons x rest ih =>
    intro count hc
    simp only [WFItemsLoader.scanLoop]
    by_cases hp : p x
    · rw [if_pos hp]
      by_cases hstop : limit ≤ count + 1
      · rw [if_pos hstop]
        have h1 : limit - count = 1 := by omega
        simp [List.filter_cons, hp, h1]
      · rw [if_neg hstop]
        rw [ih (count + 1) (by omega)]
        have h1 : limit - count = limit - (count + 1) + 1 := by omega
        simp [List.filter_cons, hp, h1]
    · rw [if_neg hp]
      rw [ih count hc]
      simp [List.filter_cons, hp]

theorem fillLoop_ids_nodup (limit : Nat) :
    ∀ (src results : List (String × String)),
      (results.map Prod.fst).Nodup →
      ((WFItemsLoader.fillLoop limit results src).map Prod.fst).Nodup := by
  intro src
  induction src with
  | nil => intro results h; simpa [WFItemsLoader.fillLoop] using h
  | cons hd rest ih =>
    obtain ⟨id, nm⟩ := hd
    intro results h
    simp only [WFItemsLoader.fillLoop]
    by_cases hmem : results.any (fun r => id = r.1)
    · rw [if_pos hmem]
      exact ih results h
    · rw [if_neg hmem]
      have hid : id ∉ results.map Prod.fst := by
        intro hin
        obtain ⟨r, hr, hfst⟩ := List.mem_map.mp hin
        exact hmem (List.any_eq_true.mpr ⟨r, hr, by simp [hfst]⟩)
      have h' : ((results ++ [(id, nm)]).map Prod.fst).Nodup := by
        simp [List.nodup_append, h, hid]
      by_cases hstop : limit ≤ (results ++ [(id, nm)]).length
      · rw [if_pos hstop]; exact h'
      · rw [if_neg hstop]; exact ih _ h'

theorem fillLoop_eq (limit : Nat) :
    ∀ (src results : List (String × String)),
      results.length < limit → (src.map Prod.fst).Nodup →
      WFItemsLoader.fillLoop limit results src =
        results ++
          (src.filter
            (fun t => !(results.any (fun r => t.1 = r.1)))).take
            (limit - results.length) := by
  intro src
  induction src with
  | nil => intro results hlen hnd; simp [WFItemsLoader.fillLoop]
  | cons hd rest ih =>
    obtain ⟨id, nm⟩ := hd
    intro results hlen hnd
    have hndrest : (rest.map Prod.fst).Nodup := (List.nodup_cons.mp hnd).2
    have hidrest : id ∉ rest.map Prod.fst := (List.nodup_cons.mp hnd).1
    simp only [WFItemsLoader.fillLoop]
    by_cases hmem : results.any (fun r => id = r.1)
    · rw [if_pos hmem]
      rw [ih results hlen hndrest]
      simp [List.filter_cons, hmem]
    · rw [if_neg hmem]
      rw [Bool.not_eq_true] at hmem
      by_cases hstop : limit ≤ (results ++ [(id, nm)]).length
      · rw [if_pos hstop]
        have h1 : limit - results.length = 1 := by
          simp only [List.length_append, List.length_singleton] at hstop
          omega
        simp [List.filter_cons, hmem, h1]
      · rw [if_neg hstop]
        have hlen' : (results ++ [(id, nm)]).length < limit := by omega
        rw [ih (results ++ [(id, nm)]) hlen' hndrest]
        have hfil : rest.filter
              (fun t => !((results ++ [(id, nm)]).any (fun r => t.1 = r.1))) =
            rest.filter (fun t => !(results.any (fun r => t.1 = r.1))) := by
          apply List.filter_congr
          intro t ht
          have htid : ¬(t.1 = id) := by
            intro h
            exact hidrest (h ▸ List.mem_map_of_mem Prod.fst ht)
          simp [List.any_append, htid]
        rw [hfil]
        have h1 : limit - results.length = limit - (results.length + 1) + 1 := by
          simp only [List.length_append, List.length_singleton] at hstop
          omega
        simp [List.filter_cons, hmem, h1, List.append_assoc]

theorem targetHitOf_fst {language ql : String} {e : String × LangTable}
    {b : String × String} (h : WFItemsLoader.targetHitOf language ql e = some b) :
    b.1 = e.1 := by
  unfold WFItemsLoader.targetHitOf at h
  repeat' split at h
  all_goals first
    | (injection h with h'; subst h'; rfl)
    | exact absurd h (by simp)

theorem targetHits_ids_sublist (i18n : I18nTable) (language ql : String) :
    List.Sublist ((WFItemsLoader.targetHits i18n language ql).map Prod.fst)
      (i18n.map Prod.fst) := by
  induction i18n with
  | nil => simp [WFItemsLoader.targetHits]
  | cons hd tl ih =>
    simp only [WFItemsLoader.targetHits, List.filterMap_cons] at *
    cases hh : WFItemsLoader.targetHitOf language ql hd with
    | none => simp only [hh]; exact ih.cons hd.1
    | some b =>
      simp only [hh, List.map_cons, targetHitOf_fst hh]
      exact ih.cons₂ hd.1

theorem englishHits_mem_not_target {en : NameTable}
    {th : List (String × String)} {ql : String} {x : String × String}
    (hx : x ∈ WFItemsLoader.englishHits en th ql) :
    x.1 ∉ th.map Prod.fst := by
  intro hin
  obtain ⟨r, hr, hfst⟩ := List.mem_map.mp hin
  have hpred := (List.mem_filter.mp hx).2
  simp only [Bool.and_eq_true, Bool.not_eq_true', List.any_eq_false,
    decide_eq_true_eq] at hpred
  exact hpred.1 r hr hfst.symm

theorem englishHits_sublist (en : NameTable) (th : List (String × String))
    (ql : String) :
    List.Sublist (WFItemsLoader.englishHits en th ql) en :=
  List.filter_sublist en

/-- When the loader's multilingual search yields nothing, the engine facade
answers with the basic search (shared step of several results below). -/
theorem engine_fallback_of_empty (items : List (String × String))
    (s : WFSources) (q lang : String) (n : Nat)
    (h : WFItemsLoader.search_by_language s q lang n = []) :
    SearchEngine.search_by_language items s q lang n =
      SearchEngine.search items q n := by
  unfold SearchEngine.search_by_language
  by_cases hq : q.length < 2
  · rw [if_pos hq]
    unfold SearchEngine.search
    rw [if_pos hq]
  · rw [if_neg hq]
    simp [h]

/-! ### Concrete data used to exercise the definitions -/

/-- A small CSV source: header plus three well-formed rows. -/
def demoCsv : Option (List (List String)) :=
  some [["InternalName", "Name"], ["a1", "Nova Prime"], ["a2", "Supernova"],
    ["a3", "Foo"]]

/-- A small i18n source with German translations for two of the items. -/
def demoI18nRaw : I18nTable :=
  [("a3", [("de", [("name", "Novastern")])]),
   ("a1", [("de", [("name", "Nova Prime DE")])])]

/-- Loader sources combining `demoCsv` and `demoI18nRaw`. -/
def demoSrc : WFSources := ⟨demoCsv, some demoI18nRaw⟩

/-- The English name table that loading `demoCsv` produces. -/
def demoEn : NameTable :=
  [("a1", "Nova Prime"), ("a2", "Supernova"), ("a3", "Foo")]

/-- CSV source whose name table loads while the i18n source is absent. -/
def c4Src : WFSources := ⟨some [["h", "h"], ["x1", "Name1"]], none⟩

/-- CSV source with duplicate rows for the identifier "x". -/
def c8Csv : Option (List (List String)) :=
  some [["h", "h"], ["x", "A"], ["x", "B"]]

/-- The loader-side name table that `c8Csv` produces. -/
def c8En : NameTable := [("x", "B")]

/-- Sources whose only item matches a query via its identifier alone. -/
def c10Src : WFSources :=
  ⟨some [["h", "h"], ["a_nova", "Foo"]],
   some [("id1", [("de", [("name", "Etwas")])])]⟩

/-- The engine-side item list that `c10Src`'s CSV produces. -/
def c10Items : List (String × String) := [("a_nova", "Foo")]

/-- Sources for the union count example: name table keys x1, x2 and
translation table keys x2, x3. -/
def c7Src : WFSources :=
  ⟨some [["h", "h"], ["x1", "N1"], ["x2", "N2"]], some [("x2", []), ("x3", [])]⟩

/-- The name table that `c7Src`'s CSV produces. -/
def c7En : NameTable := [("x1", "N1"), ("x2", "N2")]

/-- The translation table that `c7Src`'s i18n source produces. -/
def c7I18n : I18nTable := [("x2", []), ("x3", [])]

/-- Five rows that all match the query "ab" via their names. -/
def fiveMatches : List (String × String) :=
  [("i1", "ab one"), ("i2", "ab two"), ("i3", "ab three"), ("i4", "ab four"),
   ("i5", "ab five")]

/-! ### Claim theorems -/

/-- C4 counterexample: with the translation source unreadable but the name
table loading successfully (one item "x1"/"Name1"), the loader does NOT keep
serving the loaded name table — `get_item_count` is 0 and a query matching the
loaded name returns nothing — refuting the claim that the store still serves
the successfully loaded dataset. -/
theorem c4_counterexample :
    parseCsv c4Src.csvSrc = some [("x1", "Name1")] ∧
    WFItemsLoader.get_item_count c4Src = 0 ∧
    WFItemsLoader.search_by_language c4Src "name" "en" 10 = [] ∧
    WFItemsLoader.get_supported_languages c4Src = {"en"} := by
  refine ⟨by decide, by decide, by decide, ?_⟩
  unfold WFItemsLoader.get_supported_languages
  rw [show loadResult c4Src = none from loadResult_no_i18n _]

/-- C4 (amended): a load failure of either source is fatal to the whole
loader — whenever `load_data` fails, every query answers its empty default
(empty searches, zero count, languages {"en"}, empty names) by returning a
value rather than raising. -/
theorem c4_degraded_defaults (s : WFSources) (q lang id : String) (n : Nat)
    (h : loadResult s = none) :
    WFItemsLoader.search_by_language s q lang n = [] ∧
    WFItemsLoader.get_item_count s = 0 ∧
    WFItemsLoader.get_supported_languages s = {"en"} ∧
    WFItemsLoader.get_item_name s id lang = "" := by
  refine ⟨?_, ?_, ?_, ?_⟩
  · unfold WFItemsLoader.search_by_language; rw [h]
  · unfold WFItemsLoader.get_item_count; rw [h]
  · unfold WFItemsLoader.get_supported_languages; rw [h]
  · unfold WFItemsLoader.get_item_name; rw [h]

/-- C4 witness: the amended degradation at the concrete sources `c4Src`. -/
theorem c4_degraded_defaults_witness :
    WFItemsLoader.search_by_language c4Src "name" "en" 10 = [] ∧
    WFItemsLoader.get_item_count c4Src = 0 ∧
    WFItemsLoader.get_supported_languages c4Src = {"en"} ∧
    WFItemsLoader.get_item_name c4Src "x1" "en" = "" :=
  c4_degraded_defaults c4Src "name" "en" "x1" 10 (loadResult_no_i18n _)

/-- C5: if the translation source fails to load, `get_supported_languages`
returns exactly {"en"} and the engine's `search_by_language` for "de" returns
the same ordered list as the basic search, for every query and limit. -/
theorem c5_translation_failure_degrades (csvSrc : Option (List (List String)))
    (items : List (String × String)) (q : String) (n : Nat) :
    WFItemsLoader.get_supported_languages ⟨csvSrc, none⟩ = {"en"} ∧
    SearchEngine.search_by_language items ⟨csvSrc, none⟩ q "de" n =
      SearchEngine.search items q n := by
  have h := loadResult_no_i18n csvSrc
  constructor
  · unfold WFItemsLoader.get_supported_languages
    rw [h]
  · apply engine_fallback_of_empty
    unfold WFItemsLoader.search_by_language
    rw [h]

/-- C7: `get_item_count` is the cardinality of the union of the name-table
identifier set and the translation-table identifier set. -/
theorem c7_item_count_union (s : WFSources) (en : NameTable) (i18n : I18nTable)
    (h : loadResult s = some (en, i18n)) :
    WFItemsLoader.get_item_count s =
      ((en.map Prod.fst).toFinset ∪ (i18n.map Prod.fst).toFinset).card := by
  unfold WFItemsLoader.get_item_count
  rw [h, ← List.toFinset_append, List.card_toFinset]

/-- C7 witness: name-table keys {x1,x2} and translation keys {x2,x3} give
count 3, the size of the union. -/
theorem c7_item_count_union_witness :
    WFItemsLoader.get_item_count c7Src =
      ((c7En.map Prod.fst).toFinset ∪ (c7I18n.map Prod.fst).toFinset).card ∧
    WFItemsLoader.get_item_count c7Src = 3 :=
  ⟨c7_item_count_union c7Src c7En c7I18n rfl, by decide⟩

/-- C8 counterexample: `SearchEngine.load_items` keeps both rows of a
duplicate identifier, so its loaded table does contain an identifier twice,
refuting the claim for that table. -/
theorem c8_counterexample :
    ¬((SearchEngine.load_items c8Csv).map Prod.fst).Nodup := by decide

/-- C8 (amended): the loader-side name table (`WFItemsLoader._load_csv`)
contains each identifier at most once, and the surviving value is the one of
the last well-formed row in file order. -/
theorem c8_loader_last_wins (header : List String) (rows : List (List String))
    (en : NameTable) (k : String)
    (h : parseCsv (some (header :: rows)) = some en) :
    (en.map Prod.fst).Nodup ∧
    dlookup en k =
      ((rows.filterMap parseRow).reverse.find? (fun p => p.1 = k)).map
        Prod.snd := by
  simp only [parseCsv, Option.some.injEq] at h
  subst h
  exact ⟨dictify_keys_nodup _, dlookup_dictify _ _⟩

/-- C8 witness: on duplicate rows ("x","A") then ("x","B") the loader keeps a
single entry for "x" whose value is "B", the last row in file order. -/
theorem c8_loader_last_wins_witness :
    ((c8En.map Prod.fst).Nodup ∧
      dlookup c8En "x" =
        ((([["x", "A"], ["x", "B"]] : List (List String)).filterMap
          parseRow).reverse.find? (fun p => p.1 = "x")).map Prod.snd) ∧
    dlookup c8En "x" = some "B" :=
  ⟨c8_loader_last_wins ["h", "h"] [["x", "A"], ["x", "B"]] c8En "x"
    (by decide), by decide⟩

/-- C9: the basic search returns the matching rows in table insertion order,
truncated to the first `limit` of them (for any positive limit and any query
long enough to pass the minimum-length gate). -/
theorem c9_basic_search_filter_take (items : List (String × String))
    (q : String) (n : Nat) (hq : 2 ≤ q.length) (hn : 1 ≤ n) :
    SearchEngine.search items q n =
      (items.filter (fun e =>
        occursIn (lowerStr q).data (lowerStr e.1).data ||
          occursIn (lowerStr q).data (lowerStr e.2).data)).take n := by
  unfold SearchEngine.search
  rw [if_neg (by omega : ¬q.length < 2)]
  rw [scanLoop_eq _ _ _ 0 (by omega)]
  simp

/-- C9 witness: with limit 1 against a table of five matching rows the basic
search returns exactly the first matching row. -/
theorem c9_basic_search_filter_take_witness :
    (SearchEngine.search fiveMatches "ab" 1 =
      (fiveMatches.filter (fun e =>
        occursIn (lowerStr "ab").data (lowerStr e.1).data ||
          occursIn (lowerStr "ab").data (lowerStr e.2).data)).take 1) ∧
    SearchEngine.search fiveMatches "ab" 1 = [("i1", "ab one")] :=
  ⟨c9_basic_search_filter_take fiveMatches "ab" 1 (by decide) (by decide),
   by decide⟩

/-- C10: whenever the loader's multilingual search returns an empty list, the
engine's `search_by_language` falls back to the basic search and returns its
results instead. -/
theorem c10_engine_fallback (items : List (String × String)) (s : WFSources)
    (q lang : String) (n : Nat)
    (h : WFItemsLoader.search_by_language s q lang n = []) :
    SearchEngine.search_by_language items s q lang n =
      SearchEngine.search items q n :=
  engine_fallback_of_empty items s q lang n h

/-- C10 witness: with translation data loaded and "de" a valid language, the
query "nova" has no multilingual hit, and the fallback basic search finds the
item whose identifier (not name) contains "nova". -/
theorem c10_engine_fallback_witness :
    WFItemsLoader.search_by_language c10Src "nova" "de" 10 = [] ∧
    SearchEngine.search_by_language c10Items c10Src "nova" "de" 10 =
      SearchEngine.search c10Items "nova" 10 ∧
    SearchEngine.search c10Items "nova" 10 = [("a_nova", "Foo")] :=
  ⟨by decide, c10_engine_fallback c10Items c10Src "nova" "de" 10 (by decide),
   by decide⟩

/-- CSV source for a single item whose identifier contains "nova" but whose
English name does not. -/
def c2Csv : Option (List (List String)) := some [["h", "h"], ["ab_nova", "Foo"]]

/-- Loader sources over `c2Csv` with an empty (but well-formed) i18n source. -/
def c2Src : WFSources := ⟨c2Csv, some []⟩

/-- C2 counterexample: the loader's `search_by_language` with language "en"
matches only English names, while the basic search of `SearchEngine.search`
also matches identifiers, so on an item whose identifier alone contains the
query the two disagree. -/
theorem c2_counterexample :
    WFItemsLoader.search_by_language c2Src "nova" "en" 10 ≠
      SearchEngine.search (SearchEngine.load_items c2Csv) "nova" 10 := by
  decide

/-- C2 (amended): with language "en" the loader's `search_by_language` is the
name-only scan of the loaded English table — the matching rows in table
order, truncated at `limit`; the query is not matched against identifiers. -/
theorem c2_en_branch_name_only (s : WFSources) (en : NameTable)
    (i18n : I18nTable) (q : String) (n : Nat)
    (hload : loadResult s = some (en, i18n)) (hq : 2 ≤ q.length)
    (hn : 1 ≤ n) :
    WFItemsLoader.search_by_language s q "en" n =
      (en.filter (fun e =>
        occursIn (lowerStr q).data (lowerStr e.2).data)).take n := by
  simp only [WFItemsLoader.search_by_language, hload]
  rw [if_neg (by omega : ¬q.length < 2), if_pos trivial]
  rw [scanLoop_eq _ _ _ 0 (by omega)]
  simp

/-- C2 witness: on the demo table the "en" search returns the two items whose
names contain "nova", in table order. -/
theorem c2_en_branch_name_only_witness :
    (WFItemsLoader.search_by_language demoSrc "nova" "en" 3 =
      (demoEn.filter (fun e =>
        occursIn (lowerStr "nova").data (lowerStr e.2).data)).take 3) ∧
    WFItemsLoader.search_by_language demoSrc "nova" "en" 3 =
      [("a1", "Nova Prime"), ("a2", "Supernova")] :=
  ⟨c2_en_branch_name_only demoSrc demoEn demoI18nRaw "nova" 3 rfl (by decide)
    (by decide), by decide⟩

/-- Sources for an identifier present only in the translation table and there
only with a field other than "name". -/
def c3Src : WFSources :=
  ⟨some [["h", "h"], ["bar", "Bar"]],
   some [("foo", [("de", [("desc", "x")])])]⟩

/-- The name table that `c3Src`'s CSV produces. -/
def c3En : NameTable := [("bar", "Bar")]

/-- The translation table that `c3Src`'s i18n source produces. -/
def c3I18n : I18nTable := [("foo", [("de", [("desc", "x")])])]

/-- C3 counterexample: the identifier "foo" is present in the translation
table (so it is not entirely unknown), yet `get_item_name` returns the empty
string for it, because its "de" entry has no "name" field and it has no
English name. -/
theorem c3_counterexample :
    WFItemsLoader.get_item_name c3Src "foo" "de" = "" ∧
    loadResult c3Src = some (c3En, c3I18n) ∧
    (dlookup c3I18n "foo").isSome = true :=
  ⟨by decide, rfl, by decide⟩

/-- The "name" entry the translation table holds for `(identifier, language)`,
if any: the spec-side description of the lookup performed by
`get_item_name`. -/
def i18nNameOf (i18n : I18nTable) (internal_name language : String) :
    Option String :=
  match dlookup i18n internal_name with
  | some langs =>
    match dlookup langs language with
    | some fields => dlookup fields "name"
    | none => none
  | none => none

/-- C3 (amended): for a non-"en" language, `get_item_name` returns the
translation-table "name" entry when present, otherwise the English name-table
entry when present, otherwise the empty string — so it can return empty for an
identifier that is present in the translation table but has no usable "name"
for the requested language and no English name. -/
theorem c3_name_fallback (s : WFSources) (en : NameTable) (i18n : I18nTable)
    (id lang : String) (hload : loadResult s = some (en, i18n))
    (hlang : lang ≠ "en") :
    WFItemsLoader.get_item_name s id lang =
      (i18nNameOf i18n id lang).getD ((dlookup en id).getD "") := by
  simp only [WFItemsLoader.get_item_name, i18nNameOf, hload]
  rw [if_neg hlang]
  repeat' split
  all_goals simp_all

/-- C3 witness: "bar" has an English name and no German translation, and
`get_item_name` falls back to the English name "Bar". -/
theorem c3_name_fallback_witness :
    (WFItemsLoader.get_item_name c3Src "bar" "de" =
      (i18nNameOf c3I18n "bar" "de").getD ((dlookup c3En "bar").getD "")) ∧
    WFItemsLoader.get_item_name c3Src "bar" "de" = "Bar" :=
  ⟨c3_name_fallback c3Src c3En c3I18n "bar" "de" rfl (by decide), by decide⟩

/-- C6: no identifier appears more than once in the output of
`search_by_language`, for every source state, query, language and limit. -/
theorem c6_no_duplicate_identifiers (s : WFSources) (q lang : String)
    (n : Nat) :
    ((WFItemsLoader.search_by_language s q lang n).map Prod.fst).Nodup := by
  unfold WFItemsLoader.search_by_language
  cases hload : loadResult s with
  | none => simp
  | some pair =>
    obtain ⟨en, i18n⟩ := pair
    obtain ⟨hen, hi18n⟩ := loadResult_keys_nodup hload
    simp only []
    have hthn : ((WFItemsLoader.targetHits i18n lang
        (lowerStr q)).map Prod.fst).Nodup :=
      List.Nodup.sublist (targetHits_ids_sublist i18n lang (lowerStr q)) hi18n
    have hehn : ((WFItemsLoader.englishHits en
        (WFItemsLoader.targetHits i18n lang (lowerStr q))
        (lowerStr q)).map Prod.fst).Nodup :=
      List.Nodup.sublist
        ((englishHits_sublist en _ (lowerStr q)).map Prod.fst) hen
    by_cases hq : q.length < 2
    · simp [hq]
    · rw [if_neg hq]
      by_cases hlang : lang = "en"
      · rw [if_pos hlang]
        exact List.Nodup.sublist
          ((scanLoop_sublist _ n en 0).map Prod.fst) hen
      · rw [if_neg hlang]
        by_cases hascii : isAsciiStr q
        · rw [if_pos hascii]
          have htake : (((WFItemsLoader.englishHits en
              (WFItemsLoader.targetHits i18n lang (lowerStr q))
              (lowerStr q)).take n).map Prod.fst).Nodup :=
            List.Nodup.sublist ((List.take_sublist n _).map Prod.fst) hehn
          split
          · exact fillLoop_ids_nodup n _ _ htake
          · exact htake
        · rw [if_neg hascii]
          split
          · rw [List.map_append]
            refine List.Nodup.append ?_ ?_ ?_
            · exact List.Nodup.sublist
                ((List.take_sublist n _).map Prod.fst) hthn
            · exact List.Nodup.sublist
                ((List.take_sublist _ _).map Prod.fst) hehn
            · intro a ha hb
              obtain ⟨x, hx, hxa⟩ := List.mem_map.mp hb
              have hx' : x ∈ WFItemsLoader.englishHits en
                  (WFItemsLoader.targetHits i18n lang (lowerStr q))
                  (lowerStr q) := List.take_subset _ _ hx
              refine englishHits_mem_not_target hx' ?_
              rw [hxa]
              exact List.map_subset Prod.fst (List.take_subset n _) ha
          · exact List.Nodup.sublist
              ((List.take_sublist n _).map Prod.fst) hthn

/-- C1: for a non-English language and a query passing the length gate, the
loaded search classifies the query as ascii-only or not and merges the two
candidate sets accordingly: english hits first (then target hits filling the
remaining capacity, skipping identifiers already chosen) for an ascii-only
query, target hits first (then english hits filling the remaining capacity)
otherwise. -/
theorem c1_merge_policy (s : WFSources) (en : NameTable) (i18n : I18nTable)
    (q lang : String) (n : Nat) (hload : loadResult s = some (en, i18n))
    (hlang : lang ≠ "en") (hq : 2 ≤ q.length) :
    WFItemsLoader.search_by_language s q lang n =
      if isAsciiStr q then
        (WFItemsLoader.englishHits en
          (WFItemsLoader.targetHits i18n lang (lowerStr q))
          (lowerStr q)).take n ++
          ((WFItemsLoader.targetHits i18n lang (lowerStr q)).filter (fun t =>
            !(((WFItemsLoader.englishHits en
              (WFItemsLoader.targetHits i18n lang (lowerStr q))
              (lowerStr q)).take n).any (fun r => t.1 = r.1)))).take
            (n - ((WFItemsLoader.englishHits en
              (WFItemsLoader.targetHits i18n lang (lowerStr q))
              (lowerStr q)).take n).length)
      else
        (WFItemsLoader.targetHits i18n lang (lowerStr q)).take n ++
          (WFItemsLoader.englishHits en
            (WFItemsLoader.targetHits i18n lang (lowerStr q))
            (lowerStr q)).take
            (n - ((WFItemsLoader.targetHits i18n lang
              (lowerStr q)).take n).length) := by
  simp only [WFItemsLoader.search_by_language, hload]
  rw [if_neg (by omega : ¬q.length < 2), if_neg hlang]
  have hthn : ((WFItemsLoader.targetHits i18n lang
      (lowerStr q)).map Prod.fst).Nodup :=
    List.Nodup.sublist (targetHits_ids_sublist i18n lang (lowerStr q))
      (loadResult_keys_nodup hload).2
  by_cases hascii : isAsciiStr q
  · rw [if_pos hascii, if_pos hascii]
    by_cases hlt : ((WFItemsLoader.englishHits en
        (WFItemsLoader.targetHits i18n lang (lowerStr q))
        (lowerStr q)).take n).length < n
    · rw [if_pos hlt]
      exact fillLoop_eq n _ _ hlt hthn
    · rw [if_neg hlt]
      have hlen : ((WFItemsLoader.englishHits en
          (WFItemsLoader.targetHits i18n lang (lowerStr q))
          (lowerStr q)).take n).length = n := by
        rw [List.length_take] at hlt ⊢
        omega
      simp [hlen]
  · rw [if_neg hascii, if_neg hascii]
    by_cases hlt : ((WFItemsLoader.targetHits i18n lang
        (lowerStr q)).take n).length < n
    · rw [if_pos hlt]
    · rw [if_neg hlt]
      have hlen : ((WFItemsLoader.targetHits i18n lang
          (lowerStr q)).take n).length = n := by
        rw [List.length_take] at hlt ⊢
        omega
      simp [hlen]

/-- C1 witness: the ascii query "nova" against the demo data with limit 2
takes the lone english hit first and fills the remaining slot from the
target-language hits. -/
theorem c1_merge_policy_witness :
    (WFItemsLoader.search_by_language demoSrc "nova" "de" 2 =
      if isAsciiStr "nova" then
        (WFItemsLoader.englishHits demoEn
          (WFItemsLoader.targetHits demoI18nRaw "de" (lowerStr "nova"))
          (lowerStr "nova")).take 2 ++
          ((WFItemsLoader.targetHits demoI18nRaw "de"
            (lowerStr "nova")).filter (fun t =>
            !(((WFItemsLoader.englishHits demoEn
              (WFItemsLoader.targetHits demoI18nRaw "de" (lowerStr "nova"))
              (lowerStr "nova")).take 2).any (fun r => t.1 = r.1)))).take
            (2 - ((WFItemsLoader.englishHits demoEn
              (WFItemsLoader.targetHits demoI18nRaw "de" (lowerStr "nova"))
              (lowerStr "nova")).take 2).length)
      else
        (WFItemsLoader.targetHits demoI18nRaw "de" (lowerStr "nova")).take 2 ++
          (WFItemsLoader.englishHits demoEn
            (WFItemsLoader.targetHits demoI18nRaw "de" (lowerStr "nova"))
            (lowerStr "nova")).take
            (2 - ((WFItemsLoader.targetHits demoI18nRaw "de"
              (lowerStr "nova")).take 2).length)) ∧
    WFItemsLoader.search_by_language demoSrc "nova" "de" 2 =
      [("a2", "Supernova"), ("a3", "Novastern")] :=
  ⟨c1_merge_policy demoSrc demoEn demoI18nRaw "nova" "de" 2 rfl (by decide)
    (by decide), by decide⟩

end WPM
